import Mathlib

/-!
Shallow embedding of the codecrafters HTTP server core
(request parser, router, response encoder) from
`src/request.rs`, `src/router.rs`, `src/response.rs`, `src/http.rs`.

Byte streams are modelled as `List Nat` (each element one `u8`).
Rust `String` values produced by unchecked byte-to-text conversion are
kept as raw byte lists, since every comparison the program performs on
them (equality, prefix test, hash-map key lookup) is a byte comparison.
Code that can `panic!` / fail an assertion is modelled with `Option`.
-/

/-- Byte sequence of a string literal (ASCII; one `Nat` per char). -/
def bytesOf (s : String) : List Nat := s.data.map Char.toNat

/-- Header mapping, newest insertion first; lookup takes the first hit,
so lookup semantics agree with `HashMap::insert` (last insert wins). -/
abbrev HeaderMap := List (List Nat × List Nat)

/-- Model of `HashMap::insert` as used by `parse_headers`: the new binding
shadows any older one under lookup. -/
def insertHeader (hs : HeaderMap) (k v : List Nat) : HeaderMap :=
  (k, v) :: hs

/-- Model of `HashMap::get` on the header mapping. -/
def getHeader (hs : HeaderMap) (k : List Nat) : Option (List Nat) :=
  List.lookup k hs

/-- Does the byte list contain a CRLF (13, 10) pair of adjacent bytes? -/
def hasCRLF : List Nat → Bool
  | [] => false
  | [_] => false
  | a :: b :: l => if a = 13 ∧ b = 10 then true else hasCRLF (b :: l)

/-- Loop body of `RequestBuffer::read_next_line`: scans bytes, stopping
after a CRLF pair ('\r' popped, '\n' consumed).  Arguments mirror the
Rust locals: accumulated `buf`, `last_byte`, counter `i`.  Returns the
line content, the counter, and the unconsumed remainder of the stream. -/
def readNextLineAux : List Nat → List Nat → Nat → Nat → List Nat × Nat × List Nat
  | [], buf, _, i => (buf, i, [])
  | b :: rest, buf, last, i =>
    if b = 10 ∧ last = 13 then (buf.dropLast, i, rest)
    else readNextLineAux rest (buf ++ [b]) b (i + 1)

/-- Model of `RequestBuffer::read_next_line` on an empty initial buffer
(`buf` is empty or freshly cleared at every call site). -/
def read_next_line (s : List Nat) : List Nat × Nat × List Nat :=
  readNextLineAux s [] 0 0

/-- Model of `RequestBuffer::read_to_end`: consume everything up to (and
swallowing) the first zero byte. -/
def read_to_end : List Nat → List Nat
  | [] => []
  | b :: rest => if b = 0 then [] else b :: read_to_end rest

/-- Model of `slice::split` on a single separator byte (keeps empty chunks,
always yields at least one chunk, like Rust's `split`). -/
def splitOnByte (sep : Nat) : List Nat → List (List Nat)
  | [] => [[]]
  | b :: rest =>
    if b = sep then [] :: splitOnByte sep rest
    else
      match splitOnByte sep rest with
      | [] => [[b]]
      | h :: t => (b :: h) :: t

/-- Rust `char::is_whitespace` restricted to single bytes
(`str::trim` on bytes that came through an unchecked ASCII decode). -/
def isWS (b : Nat) : Bool := decide (b = 32 ∨ (9 ≤ b ∧ b ≤ 13))

/-- Model of `str::trim`: strip leading and trailing whitespace bytes. -/
def trimBytes (l : List Nat) : List Nat :=
  ((l.dropWhile isWS).reverse.dropWhile isWS).reverse

inductive Method
  | get
  | post
  | put
  | delete
deriving DecidableEq

inductive HttpVersion
  | v1_0
  | v1_1
deriving DecidableEq

inductive HttpCode
  | ok
  | notFound
  | created
  | internalServerError
deriving DecidableEq

/-- Rendering of `impl Display for HttpCode`. -/
def HttpCode.render : HttpCode → String
  | .ok => "200 OK"
  | .notFound => "404 Not Found"
  | .created => "201 Created"
  | .internalServerError => "500 Internal Server Error"

/-- Wire token of each method (the match arms of `impl From for Method`). -/
def Method.token : Method → List Nat
  | .get => bytesOf "GET"
  | .post => bytesOf "POST"
  | .put => bytesOf "PUT"
  | .delete => bytesOf "DELETE"

/-- Wire token of each protocol version. -/
def HttpVersion.token : HttpVersion → List Nat
  | .v1_0 => bytesOf "HTTP/1.0"
  | .v1_1 => bytesOf "HTTP/1.1"

/-- Model of `impl From for Method`; the `panic!` arm becomes `none`. -/
def Method.fromBytes (b : List Nat) : Option Method :=
  if b = bytesOf "GET" then some .get
  else if b = bytesOf "POST" then some .post
  else if b = bytesOf "PUT" then some .put
  else if b = bytesOf "DELETE" then some .delete
  else none

/-- Model of `impl From for HttpVersion`; the `panic!` arm becomes `none`. -/
def HttpVersion.fromBytes (b : List Nat) : Option HttpVersion :=
  if b = bytesOf "HTTP/1.0" then some .v1_0
  else if b = bytesOf "HTTP/1.1" then some .v1_1
  else none

structure Request where
  method : Method
  path : List Nat
  version : HttpVersion
  headers : HeaderMap
  body : List Nat
deriving DecidableEq

structure Response where
  code : HttpCode
  content : List Nat
  headers : HeaderMap
deriving DecidableEq

/-- Model of `impl From HttpCode for Response`: a bare status response. -/
def Response.fromCode (c : HttpCode) : Response :=
  { code := c, content := [], headers := [] }

/-- One serialized header line `"<name>: <value>\r\n"`. -/
def headerLine (kv : List Nat × List Nat) : List Nat :=
  kv.1 ++ bytesOf ": " ++ kv.2 ++ [13, 10]

/-- Model of `Response::into_bytes`: status line, header lines, blank line, body. -/
def Response.into_bytes (r : Response) : List Nat :=
  (bytesOf ("HTTP/1.1 " ++ r.code.render) ++ [13, 10])
    ++ (r.headers.map headerLine).flatten
    ++ [13, 10]
    ++ r.content

/-- Body of the `parse_headers` loop on one line: split on every colon,
require at least two chunks (the `assert!`), key is the chunk before
the first colon, value is the **separator-free concatenation** of all
later chunks; both are trimmed. -/
def header_kv (l : List Nat) : Option (List Nat × List Nat) :=
  match splitOnByte 58 l with
  | k :: v :: vs => some (trimBytes k, trimBytes ((v :: vs).flatten))
  | _ => none

/-- Model of `Request::parse_headers`: loop while the scanned line counted at
least one byte and its content is longer than two bytes; a failed
colon split (`assert!`) aborts; otherwise insert and continue.  On
exit the headers and the unconsumed remainder are returned. -/
def parseHeadersGo (s : List Nat) (acc : HeaderMap) : Option (HeaderMap × List Nat) :=
  if h : 0 < (read_next_line s).2.1 ∧ 2 < (read_next_line s).1.length then
    match header_kv (read_next_line s).1 with
    | some (k, v) => parseHeadersGo (read_next_line s).2.2 (insertHeader acc k v)
    | none => none
  else
    some (acc, (read_next_line s).2.2)
termination_by s.length
decreasing_by
  have key : ∀ (t buf : List Nat) (last i : Nat),
      (readNextLineAux t buf last i).2.2.length + (readNextLineAux t buf last i).2.1
        ≤ t.length + i := by
    intro t
    induction t with
    | nil => intro buf last i; simp [readNextLineAux]
    | cons b rest ih =>
      intro buf last i
      simp only [readNextLineAux]
      split
      · show rest.length + i ≤ (b :: rest).length + i
        simp
      · have h2 := ih (buf ++ [b]) b (i + 1)
        simp only [List.length_cons] at h2 ⊢
        omega
  have hk := key s [] 0 0
  simp only [read_next_line] at h ⊢
  omega

/-- Model of `Request::parse_headers`, starting from an empty mapping. -/
def parse_headers (s : List Nat) : Option (HeaderMap × List Nat) :=
  parseHeadersGo s []

/-- Model of `Request::parse_start_line`: read one line, split on spaces,
require exactly three tokens, convert tokens 1 and 3, copy token 2
verbatim as the path.  Also returns the unconsumed remainder. -/
def parse_start_line (s : List Nat) :
    Option ((Method × List Nat × HttpVersion) × List Nat) :=
  match splitOnByte 32 (read_next_line s).1 with
  | [p0, p1, p2] =>
    match Method.fromBytes p0, HttpVersion.fromBytes p2 with
    | some m, some v => some ((m, p1, v), (read_next_line s).2.2)
    | _, _ => none
  | _ => none

/-- Model of `Request::parse_body`. -/
def parse_body (s : List Nat) : List Nat := read_to_end s

/-- Model of `Request::parse`: start line, then headers, then body. -/
def Request.parse (s : List Nat) : Option Request :=
  match parse_start_line s with
  | none => none
  | some ((m, p, v), rest) =>
    match parse_headers rest with
    | none => none
    | some (hs, rest2) =>
      some { method := m, path := p, version := v, headers := hs,
             body := parse_body rest2 }

inductive ComparePath
  | exact
  | pref
deriving DecidableEq

structure Route where
  path : List Nat
  handler : Request → Response
  compare_path : ComparePath
  methods : List Method

/-- The `path_bool` computation inside `Route::matches`. -/
def Route.path_matches (r : Route) (req : Request) : Bool :=
  match r.compare_path with
  | .exact => r.path = req.path
  | .pref => r.path.isPrefixOf req.path

/-- Model of `Route::matches`: path predicate and method membership. -/
def Route.matches (r : Route) (req : Request) : Bool :=
  r.path_matches req && r.methods.contains req.method

/-- Model of `Router::route`: first matching route's handler, else 404. -/
def Router.route (routes : List Route) (req : Request) : Response :=
  match routes.find? (fun r => r.matches req) with
  | some r => r.handler req
  | none => Response.fromCode .notFound

/-- Split a byte sequence at every CRLF pair. -/
def splitCRLF : List Nat → List (List Nat)
  | [] => [[]]
  | [b] => [[b]]
  | a :: b :: rest =>
    if a = 13 ∧ b = 10 then [] :: splitCRLF rest
    else
      match splitCRLF (b :: rest) with
      | [] => [[a]]
      | h :: t => (a :: h) :: t

/-- The start-line conditions the spec calls fatal: not exactly three
space-separated tokens, a method token outside {GET, POST, PUT,
DELETE}, or a version token outside {HTTP/1.0, HTTP/1.1}. -/
def startLineBad (l : List Nat) : Bool :=
  match splitOnByte 32 l with
  | [m, _, v] =>
    decide (m ∉ [bytesOf "GET", bytesOf "POST", bytesOf "PUT", bytesOf "DELETE"]) ||
    decide (v ∉ [bytesOf "HTTP/1.0", bytesOf "HTTP/1.1"])
  | _ => true

/-- Does a sequence of header lines make the header loop abort?  A
line of at most two bytes ends the loop (no failure); a longer line
without a colon fails; a longer line with a colon continues. -/
def headersFail : List (List Nat) → Bool
  | [] => false
  | l :: rest =>
    if l.length ≤ 2 then false
    else if l.contains 58 then headersFail rest
    else true

/-- A handler returning a bare 200, used by the sample routes. -/
def okHandler : Request → Response := fun _ => Response.fromCode .ok

/-- A handler returning a bare 201, used to tell handlers apart. -/
def createdHandler : Request → Response := fun _ => Response.fromCode .created

/-- A GET request for a given path with no headers and no body. -/
def getReq (p : String) : Request :=
  { method := .get, path := bytesOf p, version := .v1_1, headers := [], body := [] }

/-- Sample route: prefix match on "/files", GET only. -/
def filesRoute : Route :=
  { path := bytesOf "/files", handler := okHandler,
    compare_path := .pref, methods := [Method.get] }

/-- Sample route: exact match on "/", GET only. -/
def rootRoute : Route :=
  { path := bytesOf "/", handler := okHandler,
    compare_path := .exact, methods := [Method.get] }

/-- Sample route: a second route on "/" bound to the 201 handler. -/
def rootRouteLater : Route :=
  { path := bytesOf "/", handler := createdHandler,
    compare_path := .exact, methods := [Method.get] }


/-- A byte list with no CRLF pair: its tail has none either, and its
head cannot complete a pair with a preceding carriage return. -/
theorem hasCRLF_cons_false {a : Nat} {l : List Nat} (h : hasCRLF (a :: l) = false) :
    hasCRLF l = false ∧ (l.head? = some 10 → a ≠ 13) := by
  cases l with
  | nil => exact ⟨rfl, by simp⟩
  | cons b l' =>
    simp only [hasCRLF] at h
    constructor
    · by_cases hc : a = 13 ∧ b = 10
      · rw [if_pos hc] at h
        exact absurd h (by simp)
      · rwa [if_neg hc] at h
    · intro hh ha
      have hb : b = 10 := by simpa using hh
      rw [if_pos ⟨ha, hb⟩] at h
      exact absurd h (by simp)

/-- Scanning a CRLF-free chunk followed by CRLF consumes exactly the
chunk and the terminator and returns the chunk as the line. -/
theorem readNextLineAux_append : ∀ (l rest buf : List Nat) (last i : Nat),
    hasCRLF l = false →
    (l.head? = some 10 → last ≠ 13) →
    readNextLineAux (l ++ 13 :: 10 :: rest) buf last i
      = (buf ++ l, i + (l.length + 1), rest)
  | [], rest, buf, last, i, _, _ => by
    simp [readNextLineAux, List.dropLast_concat]
  | a :: l, rest, buf, last, i, hCR, hhead => by
    have hne : ¬(a = 10 ∧ last = 13) := by
      rintro ⟨ha, hl⟩
      exact hhead (by simp [ha]) hl
    obtain ⟨h1, h2⟩ := hasCRLF_cons_false hCR
    simp only [List.cons_append, readNextLineAux]
    rw [if_neg hne]
    simp only [List.append_eq]
    rw [readNextLineAux_append l rest (buf ++ [a]) a (i + 1) h1 h2]
    simp only [List.append_assoc, List.singleton_append, List.length_cons,
      Prod.mk.injEq, true_and, and_true]
    omega

/-- Behaviour of `read_next_line` on a CRLF-free line plus terminator plus rest. -/
theorem read_next_line_append (l rest : List Nat) (h : hasCRLF l = false) :
    read_next_line (l ++ 13 :: 10 :: rest) = (l, l.length + 1, rest) := by
  unfold read_next_line
  rw [readNextLineAux_append l rest [] 0 0 h (by simp)]
  simp

/-- Joining two CRLF-free lists with a separator byte that is neither
CR nor LF yields a CRLF-free list. -/
theorem hasCRLF_append_sep : ∀ (a : List Nat) {sep : Nat} (b : List Nat),
    sep ≠ 10 → sep ≠ 13 → hasCRLF a = false → hasCRLF b = false →
    hasCRLF (a ++ sep :: b) = false
  | [], sep, b, h10, h13, _, hb => by
    cases b with
    | nil => rfl
    | cons c b' =>
      simp only [List.nil_append, hasCRLF]
      rw [if_neg (by rintro ⟨h, -⟩; exact h13 h)]
      exact hb
  | [x], sep, b, h10, h13, _, hb => by
    simp only [List.cons_append, List.nil_append, hasCRLF]
    rw [if_neg (by rintro ⟨-, h⟩; exact h10 h)]
    exact hasCRLF_append_sep [] b h10 h13 rfl hb
  | x :: y :: a', sep, b, h10, h13, ha, hb => by
    obtain ⟨h1, -⟩ := hasCRLF_cons_false ha
    have hne : ¬(x = 13 ∧ y = 10) := by
      rintro ⟨hx, hy⟩
      subst hx
      subst hy
      simp [hasCRLF] at ha
    simp only [List.cons_append, hasCRLF]
    rw [if_neg hne]
    exact hasCRLF_append_sep (y :: a') b h10 h13 h1 hb

/-- A CRLF-free byte list is a single chunk. -/
theorem splitCRLF_eq_self : ∀ (l : List Nat), hasCRLF l = false → splitCRLF l = [l]
  | [], _ => rfl
  | [b], _ => rfl
  | a :: b :: rest, h => by
    have hne : ¬(a = 13 ∧ b = 10) := by
      rintro ⟨hx, hy⟩
      subst hx
      subst hy
      simp [hasCRLF] at h
    obtain ⟨h1, -⟩ := hasCRLF_cons_false h
    simp only [splitCRLF]
    rw [if_neg hne, splitCRLF_eq_self (b :: rest) h1]

/-- Splitting peels one CRLF-free chunk before its CRLF terminator. -/
theorem splitCRLF_append : ∀ (a rest : List Nat), hasCRLF a = false →
    splitCRLF (a ++ 13 :: 10 :: rest) = a :: splitCRLF rest
  | [], rest, _ => by simp [splitCRLF]
  | [x], rest, _ => by
    simp only [List.cons_append, List.nil_append, splitCRLF]
    rw [if_neg (by rintro ⟨-, h⟩; exact absurd h (by omega))]
    simp
  | x :: y :: a', rest, ha => by
    have hne : ¬(x = 13 ∧ y = 10) := by
      rintro ⟨hx, hy⟩
      subst hx
      subst hy
      simp [hasCRLF] at ha
    obtain ⟨h1, -⟩ := hasCRLF_cons_false ha
    simp only [List.cons_append, splitCRLF]
    rw [if_neg hne]
    simp only [List.append_eq]
    rw [← List.cons_append, splitCRLF_append (y :: a') rest h1]

/-- Splitting a separator-free list yields a single chunk. -/
theorem splitOnByte_not_mem {sep : Nat} : ∀ (l : List Nat), sep ∉ l →
    splitOnByte sep l = [l]
  | [], _ => rfl
  | b :: rest, h => by
    have hb : ¬(b = sep) := fun he => h (he ▸ List.mem_cons_self b rest)
    have hr : sep ∉ rest := fun hm => h (List.mem_cons_of_mem _ hm)
    simp only [splitOnByte]
    rw [if_neg hb, splitOnByte_not_mem rest hr]

/-- Splitting peels one separator-free chunk before its separator. -/
theorem splitOnByte_append {sep : Nat} : ∀ (a rest : List Nat), sep ∉ a →
    splitOnByte sep (a ++ sep :: rest) = a :: splitOnByte sep rest
  | [], rest, _ => by simp [splitOnByte]
  | b :: a', rest, h => by
    have hb : ¬(b = sep) := fun he => h (he ▸ List.mem_cons_self b a')
    have ha' : sep ∉ a' := fun hm => h (List.mem_cons_of_mem _ hm)
    simp only [List.cons_append, splitOnByte]
    rw [if_neg hb]
    simp only [List.append_eq]
    rw [splitOnByte_append a' rest ha']

/-- The function `splitOnByte` always yields at least one chunk. -/
theorem splitOnByte_ne_nil {sep : Nat} : ∀ (l : List Nat), splitOnByte sep l ≠ []
  | [] => by simp [splitOnByte]
  | b :: rest => by
    by_cases hb : b = sep
    · simp [splitOnByte, hb]
    · simp only [splitOnByte, if_neg hb]
      cases hsp : splitOnByte sep rest <;> simp

/-- One iteration of the header loop on a CRLF-terminated line longer
than two bytes: process the line and continue on the remainder. -/
theorem parseHeadersGo_step (l rest : List Nat) (acc : HeaderMap)
    (hCR : hasCRLF l = false) (hlen : 2 < l.length) :
    parseHeadersGo (l ++ 13 :: 10 :: rest) acc =
      match header_kv l with
      | some (k, v) => parseHeadersGo rest (insertHeader acc k v)
      | none => none := by
  conv_lhs => rw [parseHeadersGo]
  rw [read_next_line_append l rest hCR]
  rw [dif_pos (⟨Nat.succ_pos _, hlen⟩ :
    0 < (l, l.length + 1, rest).2.1 ∧ 2 < (l, l.length + 1, rest).1.length)]

/-- The header loop exits on a CRLF-terminated line of at most two
bytes, consuming the line but nothing after it. -/
theorem parseHeadersGo_stop (l rest : List Nat) (acc : HeaderMap)
    (hCR : hasCRLF l = false) (hlen : l.length ≤ 2) :
    parseHeadersGo (l ++ 13 :: 10 :: rest) acc = some (acc, rest) := by
  conv_lhs => rw [parseHeadersGo]
  rw [read_next_line_append l rest hCR]
  rw [dif_neg (by
    show ¬(0 < (l, l.length + 1, rest).2.1 ∧ 2 < (l, l.length + 1, rest).1.length)
    rintro ⟨-, h2⟩
    have hc : 2 < l.length := h2
    omega)]

/-- Every list member splits off at a first occurrence. -/
theorem mem_split_first {x : Nat} : ∀ {l : List Nat}, x ∈ l →
    ∃ k t, l = k ++ x :: t ∧ x ∉ k := by
  intro l hl
  induction l with
  | nil => cases hl
  | cons b l' ih =>
    by_cases hb : b = x
    · exact ⟨[], l', by simp [hb], by simp⟩
    · have hx : x ∈ l' := by
        rcases List.mem_cons.mp hl with h | h
        · exact absurd h.symm hb
        · exact h
      obtain ⟨k, t, hkt, hnk⟩ := ih hx
      refine ⟨b :: k, t, by rw [hkt]; rfl, ?_⟩
      simp only [List.mem_cons, not_or]
      exact ⟨fun he => hb he.symm, hnk⟩

/-- A line with no colon fails the `assert!(parts.len() >= 2)`. -/
theorem header_kv_eq_none {l : List Nat} (h : (58 : Nat) ∉ l) :
    header_kv l = none := by
  unfold header_kv
  rw [splitOnByte_not_mem l h]

/-- A line containing a colon passes the assertion. -/
theorem header_kv_eq_some {l : List Nat} (h : (58 : Nat) ∈ l) :
    ∃ k v, header_kv l = some (k, v) := by
  obtain ⟨k, t, hkt, hnk⟩ := mem_split_first h
  subst hkt
  unfold header_kv
  rw [splitOnByte_append k t hnk]
  cases hs : splitOnByte 58 t with
  | nil => exact absurd hs (splitOnByte_ne_nil t)
  | cons v vs => exact ⟨_, _, rfl⟩

/-- The conversion `Method::from` rejects a token exactly when it is outside the
closed method enumeration. -/
theorem method_fromBytes_eq_none_iff (b : List Nat) :
    Method.fromBytes b = none ↔
      b ∉ [bytesOf "GET", bytesOf "POST", bytesOf "PUT", bytesOf "DELETE"] := by
  unfold Method.fromBytes
  split_ifs with h1 h2 h3 h4 <;> simp_all

/-- The conversion `HttpVersion::from` rejects a token exactly when it is outside the
closed version enumeration. -/
theorem httpVersion_fromBytes_eq_none_iff (b : List Nat) :
    HttpVersion.fromBytes b = none ↔
      b ∉ [bytesOf "HTTP/1.0", bytesOf "HTTP/1.1"] := by
  unfold HttpVersion.fromBytes
  split_ifs with h1 h2 <;> simp_all

/-- Behaviour of `parse_start_line` on one CRLF-terminated line: the result depends
only on the space-split of the line; the remainder is untouched. -/
theorem parse_start_line_append (l rest : List Nat) (h : hasCRLF l = false) :
    parse_start_line (l ++ 13 :: 10 :: rest) =
      match splitOnByte 32 l with
      | [p0, p1, p2] =>
        match Method.fromBytes p0, HttpVersion.fromBytes p2 with
        | some m, some v => some ((m, p1, v), rest)
        | _, _ => none
      | _ => none := by
  unfold parse_start_line
  rw [read_next_line_append l rest h]

/-- The search `find?` skips a failing prefix and returns the first success. -/
theorem find?_append_first (q : Route → Bool) :
    ∀ (pre : List Route) (r : Route) (post : List Route),
    (∀ x ∈ pre, q x = false) → q r = true →
    (pre ++ r :: post).find? q = some r
  | [], r, post, _, hr => by
    simpa using List.find?_cons_of_pos post hr
  | b :: pre, r, post, hpre, hr => by
    have hb : ¬(q b = true) := by
      rw [hpre b (List.mem_cons_self b pre)]
      simp
    simp only [List.cons_append]
    rw [List.find?_cons_of_neg _ hb]
    exact find?_append_first q pre r post
      (fun x hx => hpre x (List.mem_cons_of_mem _ hx)) hr

/-- Converting a method token back recovers the method. -/
theorem method_fromBytes_token (m : Method) :
    Method.fromBytes ( Method.token m) = some m := by
  cases m <;> decide

/-- Converting a version token back recovers the version. -/
theorem httpVersion_fromBytes_token (v : HttpVersion) :
    HttpVersion.fromBytes ( HttpVersion.token v) = some v := by
  cases v <;> decide

/-- Header-loop step when the line splits on a colon. -/
theorem parseHeadersGo_step_some (l rest : List Nat) (acc : HeaderMap) (k v : List Nat)
    (hCR : hasCRLF l = false) (hlen : 2 < l.length) (hkv : header_kv l = some (k, v)) :
    parseHeadersGo (l ++ 13 :: 10 :: rest) acc = parseHeadersGo rest (insertHeader acc k v) := by
  rw [parseHeadersGo_step l rest acc hCR hlen, hkv]

/-- Header-loop step when the line has no colon: the assertion fails. -/
theorem parseHeadersGo_step_none (l rest : List Nat) (acc : HeaderMap)
    (hCR : hasCRLF l = false) (hlen : 2 < l.length) (hkv : header_kv l = none) :
    parseHeadersGo (l ++ 13 :: 10 :: rest) acc = none := by
  rw [parseHeadersGo_step l rest acc hCR hlen, hkv]

/-- The header loop on a block of CRLF-terminated lines followed by the
blank terminator aborts exactly when `headersFail` says so. -/
theorem parseHeadersGo_flatten (hls : List (List Nat)) (body : List Nat) :
    ∀ acc : HeaderMap, (∀ l ∈ hls, hasCRLF l = false) →
    ((parseHeadersGo ((hls.map (fun l => l ++ [13, 10])).flatten ++ 13 :: 10 :: body) acc = none)
      ↔ headersFail hls = true) := by
  induction hls with
  | nil =>
    intro acc _
    simp only [List.map_nil, List.flatten_nil, List.nil_append]
    rw [show (13 : Nat) :: 10 :: body = [] ++ 13 :: 10 :: body from rfl]
    rw [parseHeadersGo_stop [] body acc rfl (by simp)]
    simp [headersFail]
  | cons l rest ih =>
    intro acc hh
    have hl : hasCRLF l = false := hh l (List.mem_cons_self l rest)
    have hrest : ∀ x ∈ rest, hasCRLF x = false :=
      fun x hx => hh x (List.mem_cons_of_mem _ hx)
    simp only [List.map_cons, List.flatten_cons, List.append_assoc,
      List.cons_append, List.nil_append]
    by_cases hlen : l.length ≤ 2
    · rw [parseHeadersGo_stop l _ acc hl hlen]
      simp [headersFail, hlen]
    · push_neg at hlen
      by_cases hcol : (58 : Nat) ∈ l
      · obtain ⟨k, v, hkv⟩ := header_kv_eq_some hcol
        rw [parseHeadersGo_step_some l _ acc k v hl hlen hkv]
        rw [ih (insertHeader acc k v) hrest]
        simp only [headersFail]
        rw [if_neg (by omega), if_pos (List.elem_iff.mpr hcol)]
      · rw [parseHeadersGo_step_none l _ acc hl hlen (header_kv_eq_none hcol)]
        simp only [headersFail]
        rw [if_neg (by omega), if_neg (fun hc => hcol (List.elem_iff.mp hc))]
        simp

/-- C1: the claim says the value of a header line is everything after
the FIRST colon, interior colons preserved.  The code instead splits
on every colon and concatenates the later chunks without separators,
so the interior colon of "Authorization: Bearer a:b" is deleted: the
stored value is "Bearer ab", not "Bearer a:b". -/
theorem colon_header_value_bug :
    parse_headers (bytesOf "Authorization: Bearer a:b\r\n\r\n")
      = some ([(bytesOf "Authorization", bytesOf "Bearer ab")], []) ∧
    bytesOf "Bearer ab" ≠ bytesOf "Bearer a:b" := by
  constructor
  · unfold parse_headers
    rw [show bytesOf "Authorization: Bearer a:b\r\n\r\n"
        = bytesOf "Authorization: Bearer a:b" ++ 13 :: 10 :: ([] ++ 13 :: 10 :: [])
        from by decide]
    rw [parseHeadersGo_step_some _ _ _ (bytesOf "Authorization") (bytesOf "Bearer ab")
      (by decide) (by decide) (by decide)]
    exact parseHeadersGo_stop [] [] _ rfl (by decide)
  · decide

/-- C2: a well-formed start line "M P V\r\n" with a recognized method
token, a space-free CRLF-free path, and a recognized version token
parses to exactly that method, that path copied verbatim, and that
version, leaving the rest of the stream unconsumed. -/
theorem parse_start_line_wellformed (m : Method) (v : HttpVersion)
    (p rest : List Nat) (hsp : (32 : Nat) ∉ p) (hcr : hasCRLF p = false) :
    parse_start_line
        ( Method.token m ++ 32 :: (p ++ 32 :: ( HttpVersion.token v ++ 13 :: 10 :: rest)))
      = some ((m, p, v), rest) := by
  have hmc : hasCRLF ( Method.token m) = false := by cases m <;> decide
  have hvc : hasCRLF ( HttpVersion.token v) = false := by cases v <;> decide
  have hms : (32 : Nat) ∉ Method.token m := by cases m <;> decide
  have hvs : (32 : Nat) ∉ HttpVersion.token v := by cases v <;> decide
  have hline : hasCRLF ( Method.token m ++ 32 :: (p ++ 32 :: HttpVersion.token v)) = false :=
    hasCRLF_append_sep ( Method.token m) (p ++ 32 :: HttpVersion.token v)
      (by decide) (by decide) hmc
      (hasCRLF_append_sep p ( HttpVersion.token v) (by decide) (by decide) hcr hvc)
  rw [show Method.token m ++ 32 :: (p ++ 32 :: ( HttpVersion.token v ++ 13 :: 10 :: rest))
      = ( Method.token m ++ 32 :: (p ++ 32 :: HttpVersion.token v)) ++ 13 :: 10 :: rest
      from by simp [List.append_assoc]]
  rw [parse_start_line_append _ rest hline]
  rw [splitOnByte_append _ _ hms, splitOnByte_append p _ hsp,
    splitOnByte_not_mem _ hvs]
  simp [method_fromBytes_token, httpVersion_fromBytes_token]

/-- Witness for C2 at a concrete well-formed start line. -/
theorem parse_start_line_wellformed_witness :
    parse_start_line (bytesOf "GET /abc HTTP/1.1\r\n")
      = some ((Method.get, bytesOf "/abc", HttpVersion.v1_1), []) := by
  rw [show bytesOf "GET /abc HTTP/1.1\r\n"
      = Method.token Method.get
          ++ 32 :: (bytesOf "/abc" ++ 32 :: ( HttpVersion.token HttpVersion.v1_1 ++ 13 :: 10 :: []))
      from by decide]
  exact parse_start_line_wellformed Method.get HttpVersion.v1_1 (bytesOf "/abc") []
    (by decide) (by decide)

/-- C8: the body is all remaining bytes, truncated at the first NUL
byte when one is present. -/
theorem parse_body_nul_truncation :
    (∀ (a rest : List Nat), (0 : Nat) ∉ a → parse_body (a ++ 0 :: rest) = a) ∧
    (∀ s : List Nat, (0 : Nat) ∉ s → parse_body s = s) := by
  have h2 : ∀ s : List Nat, (0 : Nat) ∉ s → read_to_end s = s := by
    intro s hs
    induction s with
    | nil => rfl
    | cons b s' ih =>
      simp only [List.mem_cons, not_or] at hs
      simp only [read_to_end]
      rw [if_neg (fun hb => hs.1 hb.symm), ih hs.2]
  constructor
  · intro a rest ha
    induction a with
    | nil => simp [parse_body, read_to_end]
    | cons b a' ih =>
      simp only [List.mem_cons, not_or] at ha
      simp only [parse_body, read_to_end, List.cons_append, List.append_eq]
      rw [if_neg (fun hb => ha.1 hb.symm)]
      have hr := ih ha.2
      simp only [parse_body] at hr
      rw [hr]
  · exact fun s hs => h2 s hs

/-- Witness for C8: a body with and without an embedded NUL. -/
theorem parse_body_nul_truncation_witness :
    parse_body (bytesOf "he" ++ 0 :: bytesOf "llo") = bytesOf "he" ∧
    parse_body (bytesOf "hello") = bytesOf "hello" := by
  constructor
  · exact parse_body_nul_truncation.1 (bytesOf "he") (bytesOf "llo") (by decide)
  · exact parse_body_nul_truncation.2 (bytesOf "hello") (by decide)

/-- C10: a CRLF-terminated header line that is non-empty but at most
two bytes long silently ends header scanning like the blank line: it
is not inserted, no error is raised, and everything after it is left
for the body phase; a three-byte line with a colon, by contrast, is
still parsed as a header (the loop needs length strictly above 2). -/
theorem short_header_line_terminates (l rest : List Nat)
    (h0 : l ≠ []) (h2 : l.length ≤ 2) (hcr : hasCRLF l = false) :
    parse_headers (l ++ 13 :: 10 :: rest) = some ([], rest) ∧
    Request.parse (bytesOf "GET / HTTP/1.1" ++ 13 :: 10 :: (l ++ 13 :: 10 :: rest))
      = some { method := .get, path := bytesOf "/", version := .v1_1,
               headers := [], body := read_to_end rest } ∧
    parse_headers (bytesOf "a:b\r\n\r\n") = some ([(bytesOf "a", bytesOf "b")], []) := by
  have hph : parse_headers (l ++ 13 :: 10 :: rest) = some ([], rest) :=
    parseHeadersGo_stop l rest [] hcr h2
  refine ⟨hph, ?_, ?_⟩
  · unfold Request.parse
    rw [parse_start_line_append (bytesOf "GET / HTTP/1.1") _ (by decide)]
    simp only [show splitOnByte 32 (bytesOf "GET / HTTP/1.1")
        = [bytesOf "GET", bytesOf "/", bytesOf "HTTP/1.1"] from by decide,
      show Method.fromBytes (bytesOf "GET") = some Method.get from by decide,
      show HttpVersion.fromBytes (bytesOf "HTTP/1.1") = some HttpVersion.v1_1 from by decide,
      hph]
    rfl
  · unfold parse_headers
    rw [show bytesOf "a:b\r\n\r\n"
        = bytesOf "a:b" ++ 13 :: 10 :: ([] ++ 13 :: 10 :: []) from by decide]
    rw [parseHeadersGo_step_some _ _ _ (bytesOf "a") (bytesOf "b")
      (by decide) (by decide) (by decide)]
    exact parseHeadersGo_stop [] [] _ rfl (by decide)

/-- Witness for C10 on the two-byte line "ab" with trailing bytes. -/
theorem short_header_line_terminates_witness :
    parse_headers (bytesOf "ab" ++ 13 :: 10 :: bytesOf "XY") = some ([], bytesOf "XY") ∧
    Request.parse (bytesOf "GET / HTTP/1.1" ++ 13 :: 10 :: (bytesOf "ab" ++ 13 :: 10 :: bytesOf "XY"))
      = some { method := .get, path := bytesOf "/", version := .v1_1,
               headers := [], body := read_to_end (bytesOf "XY") } := by
  have h := short_header_line_terminates (bytesOf "ab") (bytesOf "XY")
    (by decide) (by decide) (by decide)
  exact ⟨h.1, h.2.1⟩

/-- C9: the two-header example parses to the expected mapping, the
blank line ends the header section without consuming anything after
it, and with a duplicated header name the later occurrence wins. -/
theorem parse_headers_example :
    (∀ body : List Nat,
      ∃ hs, parse_headers (bytesOf "Host: localhost\r\nContent-Length: 10\r\n\r\n" ++ body)
          = some (hs, body) ∧
        getHeader hs (bytesOf "Host") = some (bytesOf "localhost") ∧
        getHeader hs (bytesOf "Content-Length") = some (bytesOf "10")) ∧
    (∃ hs, parse_headers (bytesOf "Key: 1\r\nKey: 2\r\n\r\n") = some (hs, []) ∧
      getHeader hs (bytesOf "Key") = some (bytesOf "2")) := by
  constructor
  · intro body
    refine ⟨[(bytesOf "Content-Length", bytesOf "10"),
             (bytesOf "Host", bytesOf "localhost")], ?_, by decide, by decide⟩
    unfold parse_headers
    rw [show bytesOf "Host: localhost\r\nContent-Length: 10\r\n\r\n" ++ body
        = bytesOf "Host: localhost"
            ++ 13 :: 10 :: (bytesOf "Content-Length: 10" ++ 13 :: 10 :: ([] ++ 13 :: 10 :: body))
        from by
      rw [show bytesOf "Host: localhost\r\nContent-Length: 10\r\n\r\n"
          = bytesOf "Host: localhost"
              ++ 13 :: 10 :: (bytesOf "Content-Length: 10" ++ 13 :: 10 :: [13, 10])
          from by decide]
      simp [List.append_assoc]]
    rw [parseHeadersGo_step_some _ _ _ (bytesOf "Host") (bytesOf "localhost")
      (by decide) (by decide) (by decide)]
    rw [parseHeadersGo_step_some _ _ _ (bytesOf "Content-Length") (bytesOf "10")
      (by decide) (by decide) (by decide)]
    exact parseHeadersGo_stop [] body _ rfl (by decide)
  · refine ⟨[(bytesOf "Key", bytesOf "2"), (bytesOf "Key", bytesOf "1")], ?_, by decide⟩
    unfold parse_headers
    rw [show bytesOf "Key: 1\r\nKey: 2\r\n\r\n"
        = bytesOf "Key: 1" ++ 13 :: 10 :: (bytesOf "Key: 2" ++ 13 :: 10 :: ([] ++ 13 :: 10 :: []))
        from by decide]
    rw [parseHeadersGo_step_some _ _ _ (bytesOf "Key") (bytesOf "1")
      (by decide) (by decide) (by decide)]
    rw [parseHeadersGo_step_some _ _ _ (bytesOf "Key") (bytesOf "2")
      (by decide) (by decide) (by decide)]
    exact parseHeadersGo_stop [] [] _ rfl (by decide)

/-- C3: routes are evaluated in registration order and the first
matching route's handler decides the response — regardless of any
later matching route — and a route matches exactly when its path
predicate holds and the request method belongs to its method set. -/
theorem router_first_match_wins (pre mid post : List Route) (r1 r2 : Route) (req : Request)
    (hpre : ∀ r ∈ pre, Route.matches r req = false)
    (h1 : Route.matches r1 req = true) (h2 : Route.matches r2 req = true) :
    Router.route (pre ++ r1 :: (mid ++ r2 :: post)) req = r1.handler req ∧
    (∀ r : Route, Route.matches r req = true ↔
      ( Route.path_matches r req = true ∧ req.method ∈ r.methods)) := by
  constructor
  · unfold Router.route
    rw [find?_append_first (fun r => Route.matches r req) pre r1 (mid ++ r2 :: post) hpre h1]
  · intro r
    unfold Route.matches
    simp [List.contains, List.elem_iff]

/-- Witness for C3: two routes on "/" with different handlers; the
earlier one answers. -/
theorem router_first_match_wins_witness :
    Router.route ([] ++ rootRoute :: ([] ++ rootRouteLater :: [])) (getReq "/")
      = rootRoute.handler (getReq "/") :=
  (router_first_match_wins [] [] [] rootRoute rootRouteLater (getReq "/")
    (by simp) (by decide) (by decide)).1

/-- C4: an Exact route path-matches exactly on byte equality, a
Prefix route path-matches exactly on a literal byte prefix with no
segment awareness: Prefix "/files" matches both "/files/a.txt" and
"/filesystem", and Exact "/" matches "/" but not "/index". -/
theorem path_match_characterization :
    (∀ (r : Route) (req : Request), r.compare_path = ComparePath.exact →
      ( Route.path_matches r req = true ↔ r.path = req.path)) ∧
    (∀ (r : Route) (req : Request), r.compare_path = ComparePath.pref →
      ( Route.path_matches r req = true ↔ r.path <+: req.path)) ∧
    Route.path_matches filesRoute (getReq "/files/a.txt") = true ∧
    Route.path_matches filesRoute (getReq "/filesystem") = true ∧
    Route.path_matches rootRoute (getReq "/") = true ∧
    Route.path_matches rootRoute (getReq "/index") = false := by
  refine ⟨?_, ?_, by decide, by decide, by decide, by decide⟩
  · intro r req h
    simp [ Route.path_matches, h]
  · intro r req h
    simp [ Route.path_matches, h, List.isPrefixOf_iff_prefix]

/-- Witness for C4 on the concrete exact and prefix routes. -/
theorem path_match_characterization_witness :
    Route.path_matches rootRoute (getReq "/") = true ∧
    Route.path_matches filesRoute (getReq "/filesystem") = true := by
  constructor
  · exact (path_match_characterization.1 rootRoute (getReq "/") rfl).mpr (by decide)
  · exact (path_match_characterization.2.1 filesRoute (getReq "/filesystem") rfl).mpr
      (by decide)

/-- C5: with no matching route the router answers 404 with empty body
and empty headers; with a first matching route it returns that
handler's response unchanged. -/
theorem route_fallback_and_identity (routes : List Route) (req : Request) :
    ((∀ r ∈ routes, Route.matches r req = false) →
      Router.route routes req
        = { code := HttpCode.notFound, content := [], headers := [] }) ∧
    (∀ (pre post : List Route) (r : Route),
      routes = pre ++ r :: post →
      (∀ x ∈ pre, Route.matches x req = false) →
      Route.matches r req = true →
      Router.route routes req = r.handler req) := by
  constructor
  · intro hall
    unfold Router.route
    rw [List.find?_eq_none.mpr (fun x hx => by rw [hall x hx]; simp)]
    rfl
  · intro pre post r hsplit hpre hr
    subst hsplit
    unfold Router.route
    rw [find?_append_first (fun x => Route.matches x req) pre r post hpre hr]

/-- Witness for C5: an empty route table gives the bare 404; a
matching table returns the handler result. -/
theorem route_fallback_and_identity_witness :
    Router.route [] (getReq "/nope")
      = { code := HttpCode.notFound, content := [], headers := [] } ∧
    Router.route [rootRoute] (getReq "/") = rootRoute.handler (getReq "/") := by
  constructor
  · exact (route_fallback_and_identity [] (getReq "/nope")).1 (by simp)
  · exact (route_fallback_and_identity [rootRoute] (getReq "/")).2 [] [] rootRoute rfl
      (by simp) (by decide)

/-- C6: serializing a response and re-splitting the bytes at CRLF
reproduces exactly the status line (with its fixed reason phrase),
then each header line "name: value" in the mapping's order, then the
blank line, then the body bytes untouched. -/
theorem into_bytes_round_trip (r : Response)
    (hh : ∀ kv ∈ r.headers, hasCRLF kv.1 = false ∧ hasCRLF kv.2 = false)
    (hb : hasCRLF r.content = false) :
    splitCRLF ( Response.into_bytes r)
      = (bytesOf ("HTTP/1.1 " ++ HttpCode.render r.code)
          :: r.headers.map (fun kv => kv.1 ++ bytesOf ": " ++ kv.2)) ++ [[], r.content] := by
  have hS : hasCRLF (bytesOf ("HTTP/1.1 " ++ HttpCode.render r.code)) = false := by
    cases hq : r.code <;> decide
  have key : ∀ hs : HeaderMap,
      (∀ kv ∈ hs, hasCRLF kv.1 = false ∧ hasCRLF kv.2 = false) →
      splitCRLF ((hs.map headerLine).flatten ++ 13 :: 10 :: r.content)
        = hs.map (fun kv => kv.1 ++ bytesOf ": " ++ kv.2) ++ [[], r.content] := by
    intro hs hhs
    induction hs with
    | nil =>
      simp only [List.map_nil, List.flatten_nil, List.nil_append]
      rw [show (13 : Nat) :: 10 :: r.content = [] ++ 13 :: 10 :: r.content from rfl,
        splitCRLF_append [] r.content rfl, splitCRLF_eq_self r.content hb]
    | cons kv hs' ih =>
      have h1 := hhs kv (List.mem_cons_self kv hs')
      have hrest : ∀ x ∈ hs', hasCRLF x.1 = false ∧ hasCRLF x.2 = false :=
        fun x hx => hhs x (List.mem_cons_of_mem _ hx)
      have hchunk : hasCRLF (kv.1 ++ bytesOf ": " ++ kv.2) = false := by
        have hin : hasCRLF ((32 : Nat) :: kv.2) = false :=
          hasCRLF_append_sep [] kv.2 (by decide) (by decide) rfl h1.2
        have hfull : hasCRLF (kv.1 ++ 58 :: 32 :: kv.2) = false :=
          hasCRLF_append_sep kv.1 ((32 : Nat) :: kv.2) (by decide) (by decide) h1.1 hin
        rw [show kv.1 ++ bytesOf ": " ++ kv.2 = kv.1 ++ 58 :: 32 :: kv.2 from by
          rw [show bytesOf ": " = [58, 32] from by decide]
          simp [List.append_assoc]]
        exact hfull
      rw [show (((kv :: hs').map headerLine).flatten ++ 13 :: 10 :: r.content)
          = (kv.1 ++ bytesOf ": " ++ kv.2)
              ++ 13 :: 10 :: ((hs'.map headerLine).flatten ++ 13 :: 10 :: r.content) from by
        simp [headerLine, List.append_assoc]]
      rw [splitCRLF_append _ _ hchunk, ih hrest]
      simp
  unfold Response.into_bytes
  rw [show (bytesOf ("HTTP/1.1 " ++ r.code.render) ++ [13, 10])
        ++ (r.headers.map headerLine).flatten ++ [13, 10] ++ r.content
      = bytesOf ("HTTP/1.1 " ++ r.code.render)
          ++ 13 :: 10 :: ((r.headers.map headerLine).flatten ++ 13 :: 10 :: r.content)
      from by simp [List.append_assoc]]
  rw [splitCRLF_append _ _ hS, key r.headers hh]
  simp

/-- Witness for C6 on a concrete one-header response. -/
theorem into_bytes_round_trip_witness :
    splitCRLF ( Response.into_bytes
        { code := HttpCode.ok, content := bytesOf "hi",
          headers := [(bytesOf "Content-Type", bytesOf "text/plain")] })
      = (bytesOf ("HTTP/1.1 " ++ HttpCode.render HttpCode.ok)
          :: [(bytesOf "Content-Type", bytesOf "text/plain")].map
              (fun kv => kv.1 ++ bytesOf ": " ++ kv.2)) ++ [[], bytesOf "hi"] :=
  into_bytes_round_trip
    { code := HttpCode.ok, content := bytesOf "hi",
      headers := [(bytesOf "Content-Type", bytesOf "text/plain")] }
    (by decide) (by decide)

/-- C7 counterexample: "ab" is a non-empty header line with no colon,
so the claim says parsing must fail; the code instead returns a
Request (the at-most-two-byte line merely ends the header section). -/
theorem short_no_colon_line_parses :
    Request.parse (bytesOf "GET / HTTP/1.1\r\nab\r\n\r\n") ≠ none := by
  unfold Request.parse
  rw [show bytesOf "GET / HTTP/1.1\r\nab\r\n\r\n"
      = bytesOf "GET / HTTP/1.1" ++ 13 :: 10 :: (bytesOf "ab" ++ 13 :: 10 :: [13, 10])
      from by decide]
  rw [parse_start_line_append (bytesOf "GET / HTTP/1.1") _ (by decide)]
  simp only [show splitOnByte 32 (bytesOf "GET / HTTP/1.1")
      = [bytesOf "GET", bytesOf "/", bytesOf "HTTP/1.1"] from by decide,
    show Method.fromBytes (bytesOf "GET") = some Method.get from by decide,
    show HttpVersion.fromBytes (bytesOf "HTTP/1.1") = some HttpVersion.v1_1 from by decide,
    show parse_headers (bytesOf "ab" ++ 13 :: 10 :: [13, 10]) = some ([], [13, 10]) from
      parseHeadersGo_stop (bytesOf "ab") [13, 10] [] (by decide) (by decide)]
  simp

/-- C7 (amended): over inputs structured as CRLF-terminated lines,
parsing fails exactly on a start line without exactly three
space-separated tokens, an unrecognized method or version token, or a
header line longer than two bytes with no colon reached before any
line of at most two bytes; a no-colon line of at most two bytes is
not an error (it ends the header section, see C10). -/
theorem parse_failure_characterization (start : List Nat) (hls : List (List Nat))
    (body : List Nat) (hstart : hasCRLF start = false)
    (hhls : ∀ l ∈ hls, hasCRLF l = false) :
    (Request.parse
        (start ++ 13 :: 10 :: ((hls.map (fun l => l ++ [13, 10])).flatten ++ 13 :: 10 :: body))
      = none)
      ↔ (startLineBad start = true ∨ headersFail hls = true) := by
  unfold Request.parse
  rw [parse_start_line_append start _ hstart]
  unfold startLineBad
  cases hsp : splitOnByte 32 start with
  | nil => simp
  | cons p0 t0 =>
    cases t0 with
    | nil => simp
    | cons p1 t1 =>
      cases t1 with
      | nil => simp
      | cons p2 t2 =>
        cases t2 with
        | cons p3 t3 => simp
        | nil =>
          cases hm : Method.fromBytes p0 with
          | none =>
            have hp0 := (method_fromBytes_eq_none_iff p0).mp hm
            simp [hm, hp0]
          | some m =>
            have hp0 : p0 ∈ [bytesOf "GET", bytesOf "POST", bytesOf "PUT", bytesOf "DELETE"] := by
              by_contra hc
              rw [(method_fromBytes_eq_none_iff p0).mpr hc] at hm
              simp at hm
            cases hv : HttpVersion.fromBytes p2 with
            | none =>
              have hp2 := (httpVersion_fromBytes_eq_none_iff p2).mp hv
              simp [hm, hv, hp2]
            | some v =>
              have hp2 : p2 ∈ [bytesOf "HTTP/1.0", bytesOf "HTTP/1.1"] := by
                by_contra hc
                rw [(httpVersion_fromBytes_eq_none_iff p2).mpr hc] at hv
                simp at hv
              have hiff : (parse_headers
                  ((hls.map (fun l => l ++ [13, 10])).flatten ++ 13 :: 10 :: body) = none)
                  ↔ headersFail hls = true :=
                parseHeadersGo_flatten hls body [] hhls
              cases hph : parse_headers
                  ((hls.map (fun l => l ++ [13, 10])).flatten ++ 13 :: 10 :: body) with
              | none =>
                have hfail : headersFail hls = true := hiff.mp hph
                simp [hm, hv, hph, hp0, hp2, hfail]
              | some pr =>
                obtain ⟨hs2, r2⟩ := pr
                have hnf : ¬ headersFail hls = true := by
                  intro hq
                  rw [hiff.mpr hq] at hph
                  exact Option.noConfusion hph
                simp [hm, hv, hph, hp0, hp2, hnf]

/-- Witness for C7 at a start line with the unknown method "BREW". -/
theorem parse_failure_characterization_witness :
    Request.parse (bytesOf "BREW / HTTP/1.1"
        ++ 13 :: 10 :: ((([] : List (List Nat)).map (fun l => l ++ [13, 10])).flatten
            ++ 13 :: 10 :: [])) = none :=
  (parse_failure_characterization (bytesOf "BREW / HTTP/1.1") [] []
    (by decide) (by simp)).mpr (Or.inl (by decide))
